import Mathlib

/-!
Shallow embedding of the BoxStorageDAO Beaker/PyTeal application
(`intermediate-en/session_3/dao/app.py`) and verification of its
specification claims.

Modelling conventions:
* TEAL byte strings are `List Nat` (one entry per byte); an account
  address is its 32-byte public key.
* Each `BoxMapping` is an association list keyed by the decoded key type;
  the `p-`/`v-`/... name prefixes keep the six mappings in disjoint
  namespaces, which the association-list-per-mapping representation
  reflects directly.
* Every external call is a function from the pre-state (plus its
  transaction arguments and the environment values it reads) to
  `Option` of the post-state: `none` is an aborted call, whose staged
  writes the ledger discards, so the caller keeps the pre-state.
* Inner transactions issued by `mint` and `update` are returned as
  explicit field records alongside the post-state; the `itxn_field`
  opcode's requirement that an address field hold exactly 32 bytes is
  modelled where the program can violate it (the reserve `update` reads
  from a `proposals` box).
* `uint64` values are `Nat`; vote tallies grow by one per distinct
  voter, so the `2^64` overflow abort of TEAL addition is unreachable in
  any run short enough to matter and is not modelled.
* The ledger's minimum-balance function (`AccountParam.minBalance`) is
  the external collaborator of spec section 6: base 100000 plus, per
  box, `2500 + 400 * (box name length + box value length)`.
-/

/-- A TEAL byte string, one `Nat` per byte. -/
abbrev ByteStr := List Nat

/-- An account address: its 32-byte public key. -/
abbrev Addr := ByteStr

/-- The decoded form of the composite box key `abi.Tuple2[abi.Address, abi.Uint64]`. -/
abbrev PKey := Addr × Nat

/-- Big-endian 2-byte encoding of an ABI `uint16` (tuple-head offsets). -/
def u16be (n : Nat) : ByteStr := [n / 256 % 256, n % 256]

/-- Big-endian 8-byte encoding of an ABI `uint64`. -/
def u64be (n : Nat) : ByteStr :=
  [n / 2 ^ 56 % 256, n / 2 ^ 48 % 256, n / 2 ^ 40 % 256, n / 2 ^ 32 % 256,
   n / 2 ^ 24 % 256, n / 2 ^ 16 % 256, n / 2 ^ 8 % 256, n % 256]

/-- Big-endian value of a byte string. -/
def beNat (bs : ByteStr) : Nat := bs.foldl (fun a b => a * 256 + b) 0

/-- ABI encoding of the composite key `(address, uint64)`: 32 address bytes
followed by the 8-byte big-endian id, 40 bytes total.  `vote` and
`vote_on_update` store this via `proposal_key.encode()`. -/
def encodeKey (k : PKey) : ByteStr := k.1 ++ u64be k.2

/-- ABI decoding of a stored winner key, as performed by
`proposal_key.decode(...)` in `mint` and `update` followed by the box read
that uses it.  The empty initial value (and any byte string that is not a
40-byte key image) has no decoding, which makes the call abort. -/
def decodeKey (b : ByteStr) : Option PKey :=
  if b.length = 40 then some (b.take 32, beNat (b.drop 32)) else none

/-- The `NFTProposal` ABI named tuple `(name: string, unit_name: string, reserve: address)`. -/
structure NFTProposal where
  name : ByteStr
  unit_name : ByteStr
  reserve : Addr
deriving DecidableEq, Repr

/-- ABI encoding of an `NFTProposal` value as stored in a `proposals` box:
a 36-byte head (two 2-byte tail offsets and the inline 32-byte address)
followed by the two length-prefixed string tails. -/
def encodeProposal (p : NFTProposal) : ByteStr :=
  u16be 36 ++ u16be (38 + p.name.length) ++ p.reserve
    ++ u16be p.name.length ++ p.name
    ++ u16be p.unit_name.length ++ p.unit_name

/-- First-match lookup in an association list (a box read keyed by the
decoded key; `none` means the box does not exist). -/
def lookupA {K V : Type} [DecidableEq K] : List (K × V) → K → Option V
  | [], _ => none
  | p :: rest, k => if p.1 = k then some p.2 else lookupA rest k

/-- Box write: replace the first binding of the key, or append a new box. -/
def insertA {K V : Type} [DecidableEq K] : List (K × V) → K → V → List (K × V)
  | [], k, v => [(k, v)]
  | p :: rest, k, v => if p.1 = k then (k, v) :: rest else p :: insertA rest k v

/-- Minimum-balance cost of one box: `2500 + 400 * (name length + value length)`. -/
def boxCost (keyLen valLen : Nat) : Nat := 2500 + 400 * (keyLen + valLen)

/-- Byte length of an encoded `NFTProposal` box value. -/
def proposalValLen (p : NFTProposal) : Nat := 40 + p.name.length + p.unit_name.length

/-- The global and box state of the `BoxStorageDAO` application.
`winning_proposal` / `winning_update` hold raw byte strings exactly as the
contract does (initially empty, later an `encodeKey` image). -/
structure DAOState where
  winning_proposal_votes : Nat
  winning_proposal : ByteStr
  winning_update_votes : Nat
  winning_update : ByteStr
  minted_asa : Nat
  proposals : List (PKey × NFTProposal)
  votes : List (PKey × Nat)
  has_voted : List (Addr × Bool)
  update_proposals : List (PKey × Addr)
  update_votes : List (PKey × Nat)
  update_has_voted : List (Addr × Bool)
deriving DecidableEq, Repr

/-- `create()`: `initialize_global_state` sets every global to its declared
default (`Int(0)` / `Bytes("")`); no boxes exist yet. -/
def createState : DAOState :=
  { winning_proposal_votes := 0
    winning_proposal := []
    winning_update_votes := 0
    winning_update := []
    minted_asa := 0
    proposals := []
    votes := []
    has_voted := []
    update_proposals := []
    update_votes := []
    update_has_voted := [] }

/-- The application account's minimum-balance requirement: ledger base
amount plus the box cost of every existing box, using each mapping's name
prefix length (`p-`, `v-`, `h-`, `up-`, `uv-`, `uh-`) plus the encoded key
and value lengths. -/
def minBalance (s : DAOState) : Nat :=
  100000
    + (s.proposals.map (fun p => boxCost (2 + 40) (proposalValLen p.2))).sum
    + (s.votes.map (fun _ => boxCost (2 + 40) 8)).sum
    + (s.has_voted.map (fun _ => boxCost (2 + 32) 1)).sum
    + (s.update_proposals.map (fun _ => boxCost (3 + 40) 32)).sum
    + (s.update_votes.map (fun _ => boxCost (3 + 40) 8)).sum
    + (s.update_has_voted.map (fun _ => boxCost (3 + 32) 1)).sum

/-- The payment transaction accompanying `add_proposal` / `add_update`:
the fields the contract reads (`receiver()` and `amount()`). -/
structure PayTxn where
  receiver : Addr
  amount : Nat
deriving DecidableEq, Repr

/-- `add_proposal(proposal, proposal_id, mbr_payment)`.  `appAddr` is
`Global.current_application_address()`; `sender` is `Txn.sender()`.
Asserts the pre-mint gate, that the payment goes to the application, and
that the key `(sender, proposal_id)` has no box yet; writes the proposal
box; then asserts the payment covers the minimum-balance growth measured
around the write. -/
def add_proposal (s : DAOState) (appAddr sender : Addr) (proposal : NFTProposal)
    (proposal_id : Nat) (mbr_payment : PayTxn) : Option DAOState :=
  if s.minted_asa = 0 then
    if mbr_payment.receiver = appAddr then
      let pre_mbr := minBalance s
      let proposal_key : PKey := (sender, proposal_id)
      if lookupA s.proposals proposal_key = none then
        let s1 := { s with proposals := insertA s.proposals proposal_key proposal }
        let current_mbr := minBalance s1
        if mbr_payment.amount ≥ current_mbr - pre_mbr then some s1 else none
      else none
    else none
  else none

/-- `vote(proposer, proposal_id)`.  Pre-mint gate; one-vote-per-sender
gate on `has_voted`; lazily initializes the tally box to zero when absent;
increments and stores the tally; on a strictly greater tally records the
new winner; finally marks the sender as having voted. -/
def vote (s : DAOState) (sender proposer : Addr) (proposal_id : Nat) : Option DAOState :=
  if s.minted_asa = 0 then
    let proposal_key : PKey := (proposer, proposal_id)
    if lookupA s.has_voted sender = none then
      let votes0 := if lookupA s.votes proposal_key = none
        then insertA s.votes proposal_key 0 else s.votes
      let current_votes := (lookupA votes0 proposal_key).getD 0
      let total_votes := current_votes + 1
      let votes1 := insertA votes0 proposal_key total_votes
      let s1 := { s with votes := votes1 }
      let s2 := if total_votes > s.winning_proposal_votes
        then { s1 with winning_proposal_votes := total_votes
                       winning_proposal := encodeKey proposal_key }
        else s1
      some { s2 with has_voted := insertA s2.has_voted sender true }
    else none
  else none

/-- The inner `AssetConfig` transaction issued by `mint`. -/
structure MintTxn where
  config_asset_name : ByteStr
  config_asset_unit_name : ByteStr
  config_asset_reserve : Addr
  config_asset_manager : Addr
  config_asset_url : String
  config_asset_total : Nat
  fee : Nat
deriving DecidableEq, Repr

/-- `mint()`.  Pre-mint gate; decodes `winning_proposal` into a key and
reads that proposal box (aborting when the decode fails or the box is
absent); issues the asset-creation inner transaction from its fields; and
stores the created asset id (`created_asset_id`, supplied by the ledger)
into `minted_asa`. -/
def mint (s : DAOState) (appAddr : Addr) (created_asset_id : Nat) :
    Option (DAOState × MintTxn) :=
  if s.minted_asa = 0 then
    match decodeKey s.winning_proposal with
    | none => none
    | some proposal_key =>
      match lookupA s.proposals proposal_key with
      | none => none
      | some proposal =>
        some ({ s with minted_asa := created_asset_id },
          { config_asset_name := proposal.name
            config_asset_unit_name := proposal.unit_name
            config_asset_reserve := proposal.reserve
            config_asset_manager := appAddr
            config_asset_url :=
              "template-ipfs://\x7bipfscid:1:dag-pb:reserve:sha2-256\x7d/metadata.json#arc3"
            config_asset_total := 1
            fee := 0 })
  else none

/-- The inner `AssetConfig` transaction issued by `update`. -/
structure UpdateTxn where
  config_asset : Nat
  config_asset_reserve : ByteStr
  config_asset_manager : Addr
  fee : Nat
deriving DecidableEq, Repr

/-- `update(asa)`.  Post-mint gate; decodes `winning_update` into a key;
then reads `app.state.proposals[update_proposal_key]` — the NFT `proposals`
mapping, NOT `update_proposals` — aborting when that box is absent.  The
`store_into(reserve)` is an `abi.Address.decode` with no index range, so
the `reserve` local receives the whole encoded `NFTProposal` box value;
the `itxn_field ConfigAssetReserve` assignment that follows requires a
32-byte value and errors on anything else, aborting the call — and an
encoded `NFTProposal` is at least 40 bytes, so the call never reaches
`itxn_submit`.  The `asa` asset reference argument is never read.  No
contract state is written. -/
def update (s : DAOState) (appAddr : Addr) (asa : Nat) :
    Option (DAOState × UpdateTxn) :=
  if s.minted_asa ≠ 0 then
    match decodeKey s.winning_update with
    | none => none
    | some update_proposal_key =>
      match lookupA s.proposals update_proposal_key with
      | none => none
      | some p =>
        let reserve := encodeProposal p
        if reserve.length = 32 then
          some (s,
            { config_asset := s.minted_asa
              config_asset_reserve := reserve
              config_asset_manager := appAddr
              fee := 0 })
        else none
  else none

/-- `add_update(reserve, proposal_id, mbr_payment)`.  Identical shape to
`add_proposal` but gated on the post-mint phase and writing the reserve
address into `update_proposals`. -/
def add_update (s : DAOState) (appAddr sender : Addr) (reserve : Addr)
    (proposal_id : Nat) (mbr_payment : PayTxn) : Option DAOState :=
  if s.minted_asa ≠ 0 then
    if mbr_payment.receiver = appAddr then
      let pre_mbr := minBalance s
      let proposal_key : PKey := (sender, proposal_id)
      if lookupA s.update_proposals proposal_key = none then
        let s1 := { s with update_proposals := insertA s.update_proposals proposal_key reserve }
        let current_mbr := minBalance s1
        if mbr_payment.amount ≥ current_mbr - pre_mbr then some s1 else none
      else none
    else none
  else none

/-- `vote_on_update(proposer, proposal_id)`.  Textually parallel to `vote`
but against `update_votes` / `update_has_voted` / `winning_update_votes` /
`winning_update`; its phase gate is `Assert(minted_asa == Int(0))`, the
pre-mint condition, exactly as in the source. -/
def vote_on_update (s : DAOState) (sender proposer : Addr) (proposal_id : Nat) :
    Option DAOState :=
  if s.minted_asa = 0 then
    let proposal_key : PKey := (proposer, proposal_id)
    if lookupA s.update_has_voted sender = none then
      let votes0 := if lookupA s.update_votes proposal_key = none
        then insertA s.update_votes proposal_key 0 else s.update_votes
      let current_votes := (lookupA votes0 proposal_key).getD 0
      let total_votes := current_votes + 1
      let votes1 := insertA votes0 proposal_key total_votes
      let s1 := { s with update_votes := votes1 }
      let s2 := if total_votes > s.winning_update_votes
        then { s1 with winning_update_votes := total_votes
                       winning_update := encodeKey proposal_key }
        else s1
      some { s2 with update_has_voted := insertA s2.update_has_voted sender true }
    else none
  else none

/-- One successful external call against the application: the transition
relation of the contract state machine.  `appAddr` is the application's
own account address, fixed for the contract's lifetime; senders, call
arguments and ledger-supplied values are arbitrary. -/
inductive Step (appAddr : Addr) : DAOState → DAOState → Prop
  | add_proposal (s s' : DAOState) (sender : Addr) (proposal : NFTProposal)
      (proposal_id : Nat) (pay : PayTxn)
      (h : add_proposal s appAddr sender proposal proposal_id pay = some s') :
      Step appAddr s s'
  | vote (s s' : DAOState) (sender proposer : Addr) (proposal_id : Nat)
      (h : vote s sender proposer proposal_id = some s') : Step appAddr s s'
  | mint (s s' : DAOState) (created_asset_id : Nat) (tx : MintTxn)
      (h : mint s appAddr created_asset_id = some (s', tx)) : Step appAddr s s'
  | update (s s' : DAOState) (asa : Nat) (tx : UpdateTxn)
      (h : update s appAddr asa = some (s', tx)) : Step appAddr s s'
  | add_update (s s' : DAOState) (sender reserve : Addr) (proposal_id : Nat)
      (pay : PayTxn)
      (h : add_update s appAddr sender reserve proposal_id pay = some s') :
      Step appAddr s s'
  | vote_on_update (s s' : DAOState) (sender proposer : Addr) (proposal_id : Nat)
      (h : vote_on_update s sender proposer proposal_id = some s') : Step appAddr s s'

/-- Zero or more successful calls. -/
def Reachable (appAddr : Addr) : DAOState → DAOState → Prop :=
  Relation.ReflTransGen (Step appAddr)

/-- Swap the NFT-proposal voting state with the update voting state,
leaving `minted_asa` and the two proposal registries in place.  `vote` and
`vote_on_update` are textually parallel up to this renaming of the state
cells they touch. -/
def transposeState (s : DAOState) : DAOState :=
  { winning_proposal_votes := s.winning_update_votes
    winning_proposal := s.winning_update
    winning_update_votes := s.winning_proposal_votes
    winning_update := s.winning_proposal
    minted_asa := s.minted_asa
    proposals := s.proposals
    votes := s.update_votes
    has_voted := s.update_has_voted
    update_proposals := s.update_proposals
    update_votes := s.votes
    update_has_voted := s.has_voted }

/-- Largest tally stored in a tally mapping, `0` for the empty mapping. -/
def maxTally (m : List (PKey × Nat)) : Nat := (m.map Prod.snd).foldr max 0

/-! Concrete data used to instantiate the theorems. -/

/-- A sample voter account. -/
def addrA : Addr := List.replicate 32 1

/-- A sample proposer account. -/
def addrB : Addr := List.replicate 32 2

/-- A sample application account address. -/
def appAddrC : Addr := List.replicate 32 9

/-- A sample NFT proposal with one-byte name and unit symbol. -/
def propC : NFTProposal := { name := [78], unit_name := [85], reserve := addrB }

/-- A post-mint state with no boxes: `minted_asa` already set. -/
def pmState : DAOState := { createState with minted_asa := 1 }

/-- The state after `create()` followed by one `vote(addrB, 1)` from `addrA`. -/
def sAfterVote : DAOState :=
  { createState with
    winning_proposal_votes := 1
    winning_proposal := encodeKey (addrB, 1)
    votes := [((addrB, 1), 1)]
    has_voted := [(addrA, true)] }

/-- A pre-mint state whose winning proposal key is registered. -/
def sPreMint : DAOState :=
  { createState with
    winning_proposal := encodeKey (addrB, 1)
    proposals := [((addrB, 1), propC)] }

/-- `sPreMint` after a successful `mint` that created asset id 5. -/
def sPostMint : DAOState := { sPreMint with minted_asa := 5 }

/-- The inner transaction `mint` issues from `sPreMint`. -/
def mintTxC : MintTxn :=
  { config_asset_name := propC.name
    config_asset_unit_name := propC.unit_name
    config_asset_reserve := propC.reserve
    config_asset_manager := appAddrC
    config_asset_url :=
      "template-ipfs://\x7bipfscid:1:dag-pb:reserve:sha2-256\x7d/metadata.json#arc3"
    config_asset_total := 1
    fee := 0 }

/-- A post-mint state whose winning update key has an `update_proposals`
entry but no `proposals` entry. -/
def updBugState : DAOState :=
  { createState with
    minted_asa := 1
    winning_update := encodeKey (addrB, 1)
    update_proposals := [((addrB, 1), addrA)] }

/-- A post-mint state whose winning update key has a `proposals` entry but
no `update_proposals` entry. -/
def updBugState2 : DAOState :=
  { createState with
    minted_asa := 1
    winning_update := encodeKey (addrB, 1)
    proposals := [((addrB, 1), propC)] }

/-! Association-list lemmas. -/

theorem lookupA_insertA_self {K V : Type} [DecidableEq K] (m : List (K × V)) (k : K) (v : V) :
    lookupA (insertA m k v) k = some v := by
  induction m with
  | nil => simp [insertA, lookupA]
  | cons p rest ih =>
    by_cases h : p.1 = k
    · simp [insertA, h, lookupA]
    · simp [insertA, h, lookupA, ih]

theorem lookupA_insertA_ne {K V : Type} [DecidableEq K] (m : List (K × V)) (k k' : K) (v : V)
    (hne : k' ≠ k) : lookupA (insertA m k v) k' = lookupA m k' := by
  induction m with
  | nil => simp [insertA, lookupA, hne.symm]
  | cons p rest ih =>
    by_cases h : p.1 = k
    · simp [insertA, h, lookupA, hne.symm]
    · simp [insertA, h, lookupA, ih]

theorem mem_insertA {K V : Type} [DecidableEq K] (m : List (K × V)) (k : K) (v : V)
    (q : K × V) (hq : q ∈ insertA m k v) : q = (k, v) ∨ q ∈ m := by
  induction m with
  | nil => simpa [insertA] using hq
  | cons p rest ih =>
    by_cases h : p.1 = k
    · simp only [insertA, h, if_pos] at hq
      rcases List.mem_cons.mp hq with h1 | h1
      · exact Or.inl h1
      · exact Or.inr (List.mem_cons_of_mem _ h1)
    · simp only [insertA, h, if_neg, not_false_iff] at hq
      rcases List.mem_cons.mp hq with h1 | h1
      · exact Or.inr (h1 ▸ List.mem_cons_self _ _)
      · rcases ih h1 with h2 | h2
        · exact Or.inl h2
        · exact Or.inr (List.mem_cons_of_mem _ h2)

theorem insertA_insertA {K V : Type} [DecidableEq K] (m : List (K × V)) (k : K) (v w : V) :
    insertA (insertA m k v) k w = insertA m k w := by
  induction m with
  | nil => simp [insertA]
  | cons p rest ih =>
    by_cases h : p.1 = k
    · simp [insertA, h]
    · simp [insertA, h, ih]

theorem lookupA_mem {K V : Type} [DecidableEq K] (m : List (K × V)) (k : K) (v : V)
    (h : lookupA m k = some v) : (k, v) ∈ m := by
  induction m with
  | nil => simp [lookupA] at h
  | cons p rest ih =>
    by_cases hp : p.1 = k
    · simp only [lookupA, hp, if_pos] at h
      have hv : p.2 = v := Option.some.inj h
      have hpk : p = (k, v) := Prod.ext hp hv
      rw [← hpk]
      exact List.mem_cons_self _ _
    · simp only [lookupA, hp, if_neg, not_false_iff] at h
      exact List.mem_cons_of_mem _ (ih h)

theorem lookupA_lazyInit (m : List (PKey × Nat)) (k : PKey) :
    lookupA (if lookupA m k = none then insertA m k 0 else m) k
      = some ((lookupA m k).getD 0) := by
  by_cases h : lookupA m k = none
  · simp [h, lookupA_insertA_self]
  · rcases Option.ne_none_iff_exists'.mp h with ⟨v, hv⟩
    simp [h, hv]

theorem insertA_lazyInit (m : List (PKey × Nat)) (k : PKey) (t : Nat) :
    insertA (if lookupA m k = none then insertA m k 0 else m) k t = insertA m k t := by
  by_cases h : lookupA m k = none
  · simp [h, insertA_insertA]
  · simp [h]

/-! Inversion lemmas: what a successful call did to the state. -/

theorem add_proposal_some_inv (s s' : DAOState) (appAddr sender : Addr)
    (proposal : NFTProposal) (pid : Nat) (pay : PayTxn)
    (h : add_proposal s appAddr sender proposal pid pay = some s') :
    s.minted_asa = 0 ∧ pay.receiver = appAddr ∧
      lookupA s.proposals (sender, pid) = none ∧
      s' = { s with proposals := insertA s.proposals (sender, pid) proposal } := by
  simp only [add_proposal] at h
  by_cases h1 : s.minted_asa = 0
  · rw [if_pos h1] at h
    by_cases h2 : pay.receiver = appAddr
    · rw [if_pos h2] at h
      by_cases h3 : lookupA s.proposals (sender, pid) = none
      · rw [if_pos h3] at h
        by_cases h4 : pay.amount ≥
            minBalance { s with proposals := insertA s.proposals (sender, pid) proposal }
              - minBalance s
        · rw [if_pos h4] at h
          cases h
          exact ⟨h1, h2, h3, rfl⟩
        · rw [if_neg h4] at h
          exact absurd h (by simp)
      · rw [if_neg h3] at h
        exact absurd h (by simp)
    · rw [if_neg h2] at h
      exact absurd h (by simp)
  · rw [if_neg h1] at h
    exact absurd h (by simp)

theorem vote_some_inv (s s' : DAOState) (sender proposer : Addr) (pid : Nat)
    (h : vote s sender proposer pid = some s') :
    s.minted_asa = 0 ∧ lookupA s.has_voted sender = none ∧
      s'.votes = insertA s.votes (proposer, pid) ((lookupA s.votes (proposer, pid)).getD 0 + 1) ∧
      s'.has_voted = insertA s.has_voted sender true ∧
      s'.minted_asa = s.minted_asa ∧
      s'.proposals = s.proposals ∧
      s'.update_proposals = s.update_proposals ∧
      s'.update_votes = s.update_votes ∧
      s'.update_has_voted = s.update_has_voted ∧
      s'.winning_update_votes = s.winning_update_votes ∧
      s'.winning_update = s.winning_update ∧
      (((lookupA s.votes (proposer, pid)).getD 0 + 1 > s.winning_proposal_votes ∧
          s'.winning_proposal_votes = (lookupA s.votes (proposer, pid)).getD 0 + 1 ∧
          s'.winning_proposal = encodeKey (proposer, pid)) ∨
        (¬ (lookupA s.votes (proposer, pid)).getD 0 + 1 > s.winning_proposal_votes ∧
          s'.winning_proposal_votes = s.winning_proposal_votes ∧
          s'.winning_proposal = s.winning_proposal)) := by
  simp only [vote] at h
  by_cases h1 : s.minted_asa = 0
  · rw [if_pos h1] at h
    by_cases h2 : lookupA s.has_voted sender = none
    · rw [if_pos h2] at h
      rw [lookupA_lazyInit] at h
      simp only [Option.getD_some] at h
      rw [insertA_lazyInit] at h
      refine ⟨h1, h2, ?_⟩
      by_cases h3 : (lookupA s.votes (proposer, pid)).getD 0 + 1 > s.winning_proposal_votes
      · rw [if_pos h3] at h
        cases h
        simp [h3]
      · rw [if_neg h3] at h
        cases h
        simp [h3]
    · rw [if_neg h2] at h
      exact absurd h (by simp)
  · rw [if_neg h1] at h
    exact absurd h (by simp)

theorem mint_some_inv (s s' : DAOState) (appAddr : Addr) (cid : Nat) (tx : MintTxn)
    (h : mint s appAddr cid = some (s', tx)) :
    s.minted_asa = 0 ∧ s' = { s with minted_asa := cid } := by
  simp only [mint] at h
  by_cases h1 : s.minted_asa = 0
  · rw [if_pos h1] at h
    split at h
    · exact absurd h (by simp)
    · split at h
      · exact absurd h (by simp)
      · cases h
        exact ⟨h1, rfl⟩
  · rw [if_neg h1] at h
    exact absurd h (by simp)

theorem update_some_inv (s s' : DAOState) (appAddr : Addr) (asa : Nat) (tx : UpdateTxn)
    (h : update s appAddr asa = some (s', tx)) :
    s.minted_asa ≠ 0 ∧ s' = s := by
  simp only [update] at h
  by_cases h1 : s.minted_asa ≠ 0
  · rw [if_pos h1] at h
    split at h
    · exact absurd h (by simp)
    · split at h
      · exact absurd h (by simp)
      · split at h
        · cases h
          exact ⟨h1, rfl⟩
        · exact absurd h (by simp)
  · rw [if_neg h1] at h
    exact absurd h (by simp)

/-- Length of an encoded `NFTProposal`: three 2-byte offsets/lengths plus
one more, the reserve bytes, and the two strings. -/
theorem encodeProposal_length (p : NFTProposal) :
    (encodeProposal p).length
      = 8 + p.reserve.length + p.name.length + p.unit_name.length := by
  simp [encodeProposal, u16be]
  omega

theorem add_update_some_inv (s s' : DAOState) (appAddr sender reserve : Addr)
    (pid : Nat) (pay : PayTxn)
    (h : add_update s appAddr sender reserve pid pay = some s') :
    s.minted_asa ≠ 0 ∧ pay.receiver = appAddr ∧
      lookupA s.update_proposals (sender, pid) = none ∧
      s' = { s with update_proposals := insertA s.update_proposals (sender, pid) reserve } := by
  simp only [add_update] at h
  by_cases h1 : s.minted_asa ≠ 0
  · rw [if_pos h1] at h
    by_cases h2 : pay.receiver = appAddr
    · rw [if_pos h2] at h
      by_cases h3 : lookupA s.update_proposals (sender, pid) = none
      · rw [if_pos h3] at h
        by_cases h4 : pay.amount ≥
            minBalance { s with update_proposals := insertA s.update_proposals (sender, pid) reserve }
              - minBalance s
        · rw [if_pos h4] at h
          cases h
          exact ⟨h1, h2, h3, rfl⟩
        · rw [if_neg h4] at h
          exact absurd h (by simp)
      · rw [if_neg h3] at h
        exact absurd h (by simp)
    · rw [if_neg h2] at h
      exact absurd h (by simp)
  · rw [if_neg h1] at h
    exact absurd h (by simp)

theorem vote_on_update_some_inv (s s' : DAOState) (sender proposer : Addr) (pid : Nat)
    (h : vote_on_update s sender proposer pid = some s') :
    s.minted_asa = 0 ∧ lookupA s.update_has_voted sender = none ∧
      s'.update_votes
        = insertA s.update_votes (proposer, pid)
            ((lookupA s.update_votes (proposer, pid)).getD 0 + 1) ∧
      s'.update_has_voted = insertA s.update_has_voted sender true ∧
      s'.minted_asa = s.minted_asa ∧
      s'.proposals = s.proposals ∧
      s'.update_proposals = s.update_proposals ∧
      s'.votes = s.votes ∧
      s'.has_voted = s.has_voted ∧
      s'.winning_proposal_votes = s.winning_proposal_votes ∧
      s'.winning_proposal = s.winning_proposal ∧
      (((lookupA s.update_votes (proposer, pid)).getD 0 + 1 > s.winning_update_votes ∧
          s'.winning_update_votes = (lookupA s.update_votes (proposer, pid)).getD 0 + 1 ∧
          s'.winning_update = encodeKey (proposer, pid)) ∨
        (¬ (lookupA s.update_votes (proposer, pid)).getD 0 + 1 > s.winning_update_votes ∧
          s'.winning_update_votes = s.winning_update_votes ∧
          s'.winning_update = s.winning_update)) := by
  simp only [vote_on_update] at h
  by_cases h1 : s.minted_asa = 0
  · rw [if_pos h1] at h
    by_cases h2 : lookupA s.update_has_voted sender = none
    · rw [if_pos h2] at h
      rw [lookupA_lazyInit] at h
      simp only [Option.getD_some] at h
      rw [insertA_lazyInit] at h
      refine ⟨h1, h2, ?_⟩
      by_cases h3 : (lookupA s.update_votes (proposer, pid)).getD 0 + 1 > s.winning_update_votes
      · rw [if_pos h3] at h
        cases h
        simp [h3]
      · rw [if_neg h3] at h
        cases h
        simp [h3]
    · rw [if_neg h2] at h
      exact absurd h (by simp)
  · rw [if_neg h1] at h
    exact absurd h (by simp)

/-! Step-preservation lemmas. -/

/-- `minted_asa` is written only by `mint`, whose gate requires it to be
zero, so once nonzero it stays nonzero. -/
theorem step_minted_ne_zero (appAddr : Addr) (s s' : DAOState) (hs : Step appAddr s s')
    (h : s.minted_asa ≠ 0) : s'.minted_asa ≠ 0 := by
  cases hs with
  | add_proposal sender proposal pid pay hc =>
    exact absurd (add_proposal_some_inv s s' appAddr sender proposal pid pay hc).1 h
  | vote sender proposer pid hc =>
    exact absurd (vote_some_inv s s' sender proposer pid hc).1 h
  | mint cid tx hc =>
    exact absurd (mint_some_inv s s' appAddr cid tx hc).1 h
  | update asa tx hc =>
    rw [(update_some_inv s s' appAddr asa tx hc).2]
    exact h
  | add_update sender reserve pid pay hc =>
    rw [(add_update_some_inv s s' appAddr sender reserve pid pay hc).2.2.2]
    exact h
  | vote_on_update sender proposer pid hc =>
    have := (vote_on_update_some_inv s s' sender proposer pid hc).2.2.2.2.1
    rw [this]
    exact h

theorem reachable_minted_ne_zero (appAddr : Addr) (s s' : DAOState)
    (hr : Reachable appAddr s s') (h : s.minted_asa ≠ 0) : s'.minted_asa ≠ 0 := by
  induction hr with
  | refl => exact h
  | tail _ hstep ih => exact step_minted_ne_zero appAddr _ _ hstep ih

/-- A `has_voted` flag, once present, survives every later call. -/
theorem step_has_voted_mono (appAddr : Addr) (s s' : DAOState) (hs : Step appAddr s s')
    (a : Addr) (h : lookupA s.has_voted a ≠ none) : lookupA s'.has_voted a ≠ none := by
  cases hs with
  | add_proposal sender proposal pid pay hc =>
    rw [(add_proposal_some_inv s s' appAddr sender proposal pid pay hc).2.2.2]
    exact h
  | vote sender proposer pid hc =>
    have hinv := vote_some_inv s s' sender proposer pid hc
    rw [hinv.2.2.2.1]
    by_cases hsa : a = sender
    · subst hsa
      rw [lookupA_insertA_self]
      simp
    · rw [lookupA_insertA_ne _ _ _ _ hsa]
      exact h
  | mint cid tx hc =>
    rw [(mint_some_inv s s' appAddr cid tx hc).2]
    exact h
  | update asa tx hc =>
    rw [(update_some_inv s s' appAddr asa tx hc).2]
    exact h
  | add_update sender reserve pid pay hc =>
    rw [(add_update_some_inv s s' appAddr sender reserve pid pay hc).2.2.2]
    exact h
  | vote_on_update sender proposer pid hc =>
    have := (vote_on_update_some_inv s s' sender proposer pid hc).2.2.2.2.2.2.2.2.1
    rw [this]
    exact h

theorem reachable_has_voted_mono (appAddr : Addr) (s s' : DAOState)
    (hr : Reachable appAddr s s') (a : Addr) (h : lookupA s.has_voted a ≠ none) :
    lookupA s'.has_voted a ≠ none := by
  induction hr with
  | refl => exact h
  | tail _ hstep ih => exact step_has_voted_mono appAddr _ _ hstep a ih

/-! The running-winner tally invariant. -/

/-- The relation between one tally mapping `m`, its running winner count
`w` and winner key cell `wk`: every stored tally is between 1 and `w`,
and a nonzero `w` is the tally of the entry `wk` points at. -/
def TallyInv (m : List (PKey × Nat)) (w : Nat) (wk : ByteStr) : Prop :=
  (∀ q ∈ m, 1 ≤ q.2 ∧ q.2 ≤ w) ∧
    (w ≠ 0 → ∃ k, wk = encodeKey k ∧ lookupA m k = some w)

/-- Effect of one ballot on a tally mapping satisfying `TallyInv`:
whichever branch the strict-greater-than winner check takes, the invariant
is re-established. -/
theorem tallyInv_ballot (m : List (PKey × Nat)) (w : Nat) (wk : ByteStr) (k : PKey)
    (h : TallyInv m w wk) :
    ((lookupA m k).getD 0 + 1 > w →
      TallyInv (insertA m k ((lookupA m k).getD 0 + 1))
        ((lookupA m k).getD 0 + 1) (encodeKey k)) ∧
    (¬ (lookupA m k).getD 0 + 1 > w →
      TallyInv (insertA m k ((lookupA m k).getD 0 + 1)) w wk) := by
  constructor
  · intro ht
    constructor
    · intro q hq
      rcases mem_insertA m k _ q hq with hq1 | hq1
      · rw [hq1]
        exact ⟨Nat.succ_le_succ (Nat.zero_le _), Nat.le_refl _⟩
      · rcases h.1 q hq1 with ⟨hl, hu⟩
        exact ⟨hl, Nat.le_trans hu (Nat.le_of_lt ht)⟩
    · intro _
      exact ⟨k, rfl, lookupA_insertA_self m k _⟩
  · intro hnt
    have hle : (lookupA m k).getD 0 + 1 ≤ w := Nat.le_of_not_lt hnt
    constructor
    · intro q hq
      rcases mem_insertA m k _ q hq with hq1 | hq1
      · rw [hq1]
        exact ⟨Nat.succ_le_succ (Nat.zero_le _), hle⟩
      · exact h.1 q hq1
    · intro hw
      rcases h.2 hw with ⟨k0, hwk, hlk⟩
      have hk0 : k0 ≠ k := by
        intro he
        subst he
        rw [hlk] at hnt
        simp at hnt
      exact ⟨k0, hwk, by rw [lookupA_insertA_ne _ _ _ _ hk0]; exact hlk⟩

/-- The two-sided invariant on full contract states. -/
def WinnerInv (s : DAOState) : Prop :=
  TallyInv s.votes s.winning_proposal_votes s.winning_proposal ∧
    TallyInv s.update_votes s.winning_update_votes s.winning_update

theorem winnerInv_create : WinnerInv createState := by
  constructor <;> exact ⟨fun q hq => absurd hq (List.not_mem_nil q), fun hw => absurd rfl hw⟩

theorem winnerInv_step (appAddr : Addr) (s s' : DAOState) (hs : Step appAddr s s')
    (h : WinnerInv s) : WinnerInv s' := by
  cases hs with
  | add_proposal sender proposal pid pay hc =>
    rw [(add_proposal_some_inv s s' appAddr sender proposal pid pay hc).2.2.2]
    exact h
  | vote sender proposer pid hc =>
    have hinv := vote_some_inv s s' sender proposer pid hc
    obtain ⟨_, _, hv, _, _, _, _, huv, _, hwuv, hwu, hwin⟩ := hinv
    have hb := tallyInv_ballot s.votes s.winning_proposal_votes s.winning_proposal
      (proposer, pid) h.1
    constructor
    · rcases hwin with ⟨ht, hw1, hw2⟩ | ⟨ht, hw1, hw2⟩
      · rw [hv, hw1, hw2]
        exact hb.1 ht
      · rw [hv, hw1, hw2]
        exact hb.2 ht
    · rw [huv, hwuv, hwu]
      exact h.2
  | mint cid tx hc =>
    rw [(mint_some_inv s s' appAddr cid tx hc).2]
    exact h
  | update asa tx hc =>
    rw [(update_some_inv s s' appAddr asa tx hc).2]
    exact h
  | add_update sender reserve pid pay hc =>
    rw [(add_update_some_inv s s' appAddr sender reserve pid pay hc).2.2.2]
    exact h
  | vote_on_update sender proposer pid hc =>
    have hinv := vote_on_update_some_inv s s' sender proposer pid hc
    obtain ⟨_, _, hv, _, _, _, _, hvv, _, hwpv, hwp, hwin⟩ := hinv
    have hb := tallyInv_ballot s.update_votes s.winning_update_votes s.winning_update
      (proposer, pid) h.2
    constructor
    · rw [hvv, hwpv, hwp]
      exact h.1
    · rcases hwin with ⟨ht, hw1, hw2⟩ | ⟨ht, hw1, hw2⟩
      · rw [hv, hw1, hw2]
        exact hb.1 ht
      · rw [hv, hw1, hw2]
        exact hb.2 ht

theorem winnerInv_reachable (appAddr : Addr) (s : DAOState)
    (hr : Reachable appAddr createState s) : WinnerInv s := by
  induction hr with
  | refl => exact winnerInv_create
  | tail _ hstep ih => exact winnerInv_step appAddr _ _ hstep ih


theorem le_maxTally (m : List (PKey × Nat)) (q : PKey × Nat) (hq : q ∈ m) :
    q.2 ≤ maxTally m := by
  induction m with
  | nil => exact absurd hq (List.not_mem_nil q)
  | cons p rest ih =>
    rcases List.mem_cons.mp hq with h1 | h1
    · rw [h1]
      exact le_max_left _ _
    · exact Nat.le_trans (ih h1) (le_max_right _ _)

theorem maxTally_le (m : List (PKey × Nat)) (w : Nat) (h : ∀ q ∈ m, q.2 ≤ w) :
    maxTally m ≤ w := by
  induction m with
  | nil => exact Nat.zero_le w
  | cons p rest ih =>
    refine max_le (h p (List.mem_cons_self _ _)) (ih ?_)
    intro q hq
    exact h q (List.mem_cons_of_mem _ hq)

/-- A `TallyInv` winner count is exactly the maximum stored tally. -/
theorem tallyInv_eq_maxTally (m : List (PKey × Nat)) (w : Nat) (wk : ByteStr)
    (h : TallyInv m w wk) : w = maxTally m := by
  by_cases hw : w = 0
  · subst hw
    cases m with
    | nil => rfl
    | cons p rest =>
      rcases h.1 p (List.mem_cons_self _ _) with ⟨h1, h2⟩
      omega
  · rcases h.2 hw with ⟨k0, _, hlk⟩
    have h1 : w ≤ maxTally m := le_maxTally m (k0, w) (lookupA_mem m k0 w hlk)
    have h2 : maxTally m ≤ w := maxTally_le m w (fun q hq => (h.1 q hq).2)
    omega

/-! Helper results shared by the claim theorems. -/

/-- Each successful call either leaves the proposal winner pair untouched,
or strictly raises `winning_proposal_votes` and repoints
`winning_proposal` at a key whose stored tally equals the new count. -/
theorem step_winner_cases (appAddr : Addr) (s s' : DAOState) (hs : Step appAddr s s') :
    (s'.winning_proposal_votes = s.winning_proposal_votes ∧
      s'.winning_proposal = s.winning_proposal) ∨
    (s.winning_proposal_votes < s'.winning_proposal_votes ∧
      ∃ k : PKey, s'.winning_proposal = encodeKey k ∧
        lookupA s'.votes k = some s'.winning_proposal_votes) := by
  cases hs with
  | add_proposal sender proposal pid pay hc =>
    left
    rw [(add_proposal_some_inv s s' appAddr sender proposal pid pay hc).2.2.2]
    exact ⟨rfl, rfl⟩
  | vote sender proposer pid hc =>
    obtain ⟨_, _, hv, _, _, _, _, _, _, _, _, hwin⟩ := vote_some_inv s s' sender proposer pid hc
    rcases hwin with ⟨ht, hw1, hw2⟩ | ⟨_, hw1, hw2⟩
    · right
      refine ⟨by rw [hw1]; exact ht, (proposer, pid), hw2, ?_⟩
      rw [hv, hw1, lookupA_insertA_self]
    · left
      exact ⟨hw1, hw2⟩
  | mint cid tx hc =>
    left
    rw [(mint_some_inv s s' appAddr cid tx hc).2]
    exact ⟨rfl, rfl⟩
  | update asa tx hc =>
    left
    rw [(update_some_inv s s' appAddr asa tx hc).2]
    exact ⟨rfl, rfl⟩
  | add_update sender reserve pid pay hc =>
    left
    rw [(add_update_some_inv s s' appAddr sender reserve pid pay hc).2.2.2]
    exact ⟨rfl, rfl⟩
  | vote_on_update sender proposer pid hc =>
    obtain ⟨_, _, _, _, _, _, _, _, _, hwpv, hwp, _⟩ :=
      vote_on_update_some_inv s s' sender proposer pid hc
    left
    exact ⟨hwpv, hwp⟩

/-- `vote_on_update` is `vote` run on the transposed state, transposed
back: both gate on `minted_asa == 0` and run one identical ballot. -/
theorem vote_on_update_eq_vote_transposed (s : DAOState) (sender proposer : Addr)
    (pid : Nat) :
    vote_on_update s sender proposer pid
      = Option.map transposeState (vote (transposeState s) sender proposer pid) := by
  simp only [vote, vote_on_update, transposeState]
  by_cases h1 : s.minted_asa = 0
  · rw [if_pos h1, if_pos h1]
    by_cases h2 : lookupA s.update_has_voted sender = none
    · rw [if_pos h2, if_pos h2]
      by_cases h3 : (lookupA (if lookupA s.update_votes (proposer, pid) = none
            then insertA s.update_votes (proposer, pid) 0
            else s.update_votes) (proposer, pid)).getD 0 + 1 > s.winning_update_votes
      · rw [if_pos h3, if_pos h3]
        rfl
      · rw [if_neg h3, if_neg h3]
        rfl
    · rw [if_neg h2, if_neg h2]
      rfl
  · rw [if_neg h1, if_neg h1]
    rfl

/-! Claim theorems. -/

/-- C7: in every state, `add_proposal` and `vote` abort whenever
`minted_asa != 0`, and `add_update` and `update` abort whenever
`minted_asa == 0`; an aborted call is `none`, so the pre-state is kept
unchanged. -/
theorem phase_gating (s : DAOState) (appAddr sender proposer reserve : Addr)
    (proposal : NFTProposal) (pid : Nat) (pay : PayTxn) (asa : Nat) :
    (s.minted_asa ≠ 0 →
      add_proposal s appAddr sender proposal pid pay = none ∧
        vote s sender proposer pid = none) ∧
    (s.minted_asa = 0 →
      add_update s appAddr sender reserve pid pay = none ∧
        update s appAddr asa = none) := by
  constructor
  · intro h
    constructor
    · simp [add_proposal, h]
    · simp [vote, h]
  · intro h
    constructor
    · simp [add_update, h]
    · simp [update, h]

/-- Witness for C7 at concrete post-mint and pre-mint states. -/
theorem phase_gating_witness :
    (add_proposal pmState appAddrC addrA propC 1 ⟨appAddrC, 40000⟩ = none ∧
      vote pmState addrA addrB 1 = none) ∧
    (add_update createState appAddrC addrA addrB 1 ⟨appAddrC, 40000⟩ = none ∧
      update createState appAddrC 1 = none) :=
  ⟨(phase_gating pmState appAddrC addrA addrB addrB propC 1 ⟨appAddrC, 40000⟩ 1).1
      (by decide),
    (phase_gating createState appAddrC addrA addrB addrB propC 1 ⟨appAddrC, 40000⟩ 1).2
      (by decide)⟩

/-- C4: once an account's `vote` call has succeeded, its `has_voted` box
exists forever after, so every later `vote` by the same sender aborts
(`none`, state kept), whatever target key it names. -/
theorem vote_once_per_account (appAddr : Addr) (s s0 : DAOState) (sender proposer : Addr)
    (pid : Nat) (h : vote s sender proposer pid = some s0)
    (s' : DAOState) (hr : Reachable appAddr s0 s') (proposer' : Addr) (pid' : Nat) :
    vote s' sender proposer' pid' = none := by
  have h0 : lookupA s0.has_voted sender ≠ none := by
    rw [(vote_some_inv s s0 sender proposer pid h).2.2.2.1, lookupA_insertA_self]
    simp
  have h1 := reachable_has_voted_mono appAddr s0 s' hr sender h0
  simp only [vote]
  by_cases h2 : s'.minted_asa = 0
  · rw [if_pos h2, if_neg h1]
  · rw [if_neg h2]

/-- Witness for C4: after `addrA` votes once from the initial state, a
second `vote` by `addrA` for a different target aborts. -/
theorem vote_once_per_account_witness : vote sAfterVote addrA addrB 2 = none :=
  vote_once_per_account appAddrC createState sAfterVote addrA addrB 1 (by decide)
    sAfterVote Relation.ReflTransGen.refl addrB 2

/-- C10 fails on the code: there is no successful `update` call at all.
Whenever the stored proposal reserves are genuine 32-byte addresses (the
ABI guarantees this for every box `add_proposal` writes), `update` aborts
on every input: either at the gate, the winner decode, the missing
`proposals` box, or — when the box exists — at the
`itxn_field ConfigAssetReserve` assignment, because the reserve it read
is the whole `NFTProposal` box value of at least 40 bytes.  State is
left unchanged only because every call aborts. -/
theorem update_always_aborts (s : DAOState) (appAddr : Addr) (asa : Nat)
    (hwf : ∀ q ∈ s.proposals, q.2.reserve.length = 32) :
    update s appAddr asa = none := by
  simp only [update]
  by_cases h1 : s.minted_asa ≠ 0
  · rw [if_pos h1]
    split
    · rfl
    · split
      · rfl
      · rename_i p hp
        have hmem := lookupA_mem _ _ _ hp
        have h32 : p.reserve.length = 32 := hwf _ hmem
        have hlen : ¬ (encodeProposal p).length = 32 := by
          rw [encodeProposal_length]
          omega
        rw [if_neg hlen]
  · rw [if_neg h1]

/-- Witness for C10: at a post-mint state where the winner decodes and the
`proposals` box exists, the call still aborts. -/
theorem update_always_aborts_witness : update updBugState2 appAddrC 1 = none :=
  update_always_aborts updBugState2 appAddrC 1 (by decide)

/-- C6: a successful `mint` records the created asset id (nonzero on the
ledger) in `minted_asa`, and from then on every `mint` call in every
reachable state aborts on the `minted_asa == 0` gate. -/
theorem mint_exactly_once (appAddr : Addr) (s s' : DAOState) (cid : Nat) (tx : MintTxn)
    (hcid : cid ≠ 0) (h : mint s appAddr cid = some (s', tx)) :
    s'.minted_asa = cid ∧ s'.minted_asa ≠ 0 ∧
      ∀ s'' : DAOState, Reachable appAddr s' s'' → ∀ cid' : Nat,
        mint s'' appAddr cid' = none := by
  have hi := mint_some_inv s s' appAddr cid tx h
  have hm : s'.minted_asa = cid := by rw [hi.2]
  refine ⟨hm, by rw [hm]; exact hcid, ?_⟩
  intro s'' hr cid'
  have hne := reachable_minted_ne_zero appAddr s' s'' hr (by rw [hm]; exact hcid)
  simp only [mint]
  rw [if_neg hne]

/-- Witness for C6: minting from `sPreMint` with created id 5 succeeds,
and a second `mint` call on the resulting state aborts. -/
theorem mint_exactly_once_witness : mint sPostMint appAddrC 7 = none :=
  (mint_exactly_once appAddrC sPreMint sPostMint 5 mintTxC (by decide) (by decide)).2.2
    sPostMint Relation.ReflTransGen.refl 7

/-- C5: `winning_proposal_votes` never decreases along any call sequence,
and one call changes it only by strictly exceeding it with a fresh tally,
repointing `winning_proposal` in the same call; a tie changes nothing. -/
theorem winner_monotonic :
    (∀ (appAddr : Addr) (s s' : DAOState), Reachable appAddr s s' →
      s.winning_proposal_votes ≤ s'.winning_proposal_votes) ∧
    (∀ (appAddr : Addr) (s s' : DAOState), Step appAddr s s' →
      (s'.winning_proposal_votes = s.winning_proposal_votes ∧
        s'.winning_proposal = s.winning_proposal) ∨
      (s.winning_proposal_votes < s'.winning_proposal_votes ∧
        ∃ k : PKey, s'.winning_proposal = encodeKey k ∧
          lookupA s'.votes k = some s'.winning_proposal_votes)) := by
  constructor
  · intro appAddr s s' hr
    induction hr with
    | refl => exact Nat.le_refl _
    | tail _ hstep ih =>
      rcases step_winner_cases appAddr _ _ hstep with ⟨h1, _⟩ | ⟨h1, _⟩
      · rw [h1]
        exact ih
      · exact Nat.le_trans ih (Nat.le_of_lt h1)
  · intro appAddr s s' hstep
    exact step_winner_cases appAddr s s' hstep

/-- Witness for C5 on the single step `create → vote(addrB, 1)`. -/
theorem winner_monotonic_witness :
    createState.winning_proposal_votes ≤ sAfterVote.winning_proposal_votes ∧
      ((sAfterVote.winning_proposal_votes = createState.winning_proposal_votes ∧
          sAfterVote.winning_proposal = createState.winning_proposal) ∨
        (createState.winning_proposal_votes < sAfterVote.winning_proposal_votes ∧
          ∃ k : PKey, sAfterVote.winning_proposal = encodeKey k ∧
            lookupA sAfterVote.votes k = some sAfterVote.winning_proposal_votes)) :=
  ⟨winner_monotonic.1 appAddrC createState sAfterVote
      (Relation.ReflTransGen.single
        (Step.vote createState sAfterVote addrA addrB 1 (by decide))),
    winner_monotonic.2 appAddrC createState sAfterVote
      (Step.vote createState sAfterVote addrA addrB 1 (by decide))⟩

/-- C9: in every state reachable from `create()`, each winner counter is
exactly the largest tally stored in its mapping (0 when empty), and when
nonzero the winner cell holds the encoded key of an entry attaining it. -/
theorem winner_is_max_tally (appAddr : Addr) (s : DAOState)
    (hr : Reachable appAddr createState s) :
    (s.winning_proposal_votes = maxTally s.votes ∧
      (maxTally s.votes ≠ 0 → ∃ k : PKey, s.winning_proposal = encodeKey k ∧
        lookupA s.votes k = some (maxTally s.votes))) ∧
    (s.winning_update_votes = maxTally s.update_votes ∧
      (maxTally s.update_votes ≠ 0 → ∃ k : PKey, s.winning_update = encodeKey k ∧
        lookupA s.update_votes k = some (maxTally s.update_votes))) := by
  have hinv := winnerInv_reachable appAddr s hr
  have h1 := tallyInv_eq_maxTally _ _ _ hinv.1
  have h2 := tallyInv_eq_maxTally _ _ _ hinv.2
  refine ⟨⟨h1, ?_⟩, ⟨h2, ?_⟩⟩
  · intro hm
    rcases hinv.1.2 (by rw [h1]; exact hm) with ⟨k, hk1, hk2⟩
    exact ⟨k, hk1, by rw [← h1]; exact hk2⟩
  · intro hm
    rcases hinv.2.2 (by rw [h2]; exact hm) with ⟨k, hk1, hk2⟩
    exact ⟨k, hk1, by rw [← h2]; exact hk2⟩

/-- Witness for C9 at the reachable state after one vote. -/
theorem winner_is_max_tally_witness :
    (sAfterVote.winning_proposal_votes = maxTally sAfterVote.votes ∧
      (maxTally sAfterVote.votes ≠ 0 → ∃ k : PKey,
        sAfterVote.winning_proposal = encodeKey k ∧
        lookupA sAfterVote.votes k = some (maxTally sAfterVote.votes))) ∧
    (sAfterVote.winning_update_votes = maxTally sAfterVote.update_votes ∧
      (maxTally sAfterVote.update_votes ≠ 0 → ∃ k : PKey,
        sAfterVote.winning_update = encodeKey k ∧
        lookupA sAfterVote.update_votes k = some (maxTally sAfterVote.update_votes))) :=
  winner_is_max_tally appAddrC sAfterVote
    (Relation.ReflTransGen.single (Step.vote createState sAfterVote addrA addrB 1 (by decide)))

/-- C2: `vote_on_update` aborts whenever `minted_asa != 0`, and in full it
is exactly `vote` run against the update-side state cells (the transposed
state), sharing the lazily-initialized tally increment and the
strict-greater-than winner update. -/
theorem vote_on_update_pre_mint_gate :
    (∀ (s : DAOState) (sender proposer : Addr) (pid : Nat), s.minted_asa ≠ 0 →
      vote_on_update s sender proposer pid = none) ∧
    (∀ (s : DAOState) (sender proposer : Addr) (pid : Nat),
      vote_on_update s sender proposer pid
        = Option.map transposeState (vote (transposeState s) sender proposer pid)) := by
  constructor
  · intro s sender proposer pid h
    simp [vote_on_update, h]
  · intro s sender proposer pid
    exact vote_on_update_eq_vote_transposed s sender proposer pid

/-- Witness for C2 at concrete post-mint and initial states. -/
theorem vote_on_update_pre_mint_gate_witness :
    vote_on_update pmState addrA addrB 1 = none ∧
      vote_on_update createState addrA addrB 1
        = Option.map transposeState (vote (transposeState createState) addrA addrB 1) :=
  ⟨vote_on_update_pre_mint_gate.1 pmState addrA addrB 1 (by decide),
    vote_on_update_pre_mint_gate.2 createState addrA addrB 1⟩

/-- C8: voting for a key that `proposals` does not contain still succeeds
for a fresh voter in the pre-mint phase: the tally box is created at zero
and incremented to one, and when the prior winner count is zero the
phantom key is installed as `winning_proposal`. -/
theorem vote_phantom (s : DAOState) (sender proposer : Addr) (pid : Nat)
    (hphase : s.minted_asa = 0)
    (hnp : lookupA s.proposals (proposer, pid) = none)
    (hnv : lookupA s.votes (proposer, pid) = none)
    (hhv : lookupA s.has_voted sender = none) :
    ∃ s' : DAOState, vote s sender proposer pid = some s' ∧
      lookupA s'.votes (proposer, pid) = some 1 ∧
      (s.winning_proposal_votes = 0 →
        s'.winning_proposal_votes = 1 ∧ s'.winning_proposal = encodeKey (proposer, pid)) := by
  simp only [vote]
  rw [if_pos hphase, if_pos hhv, lookupA_lazyInit, insertA_lazyInit]
  simp only [Option.getD_some, hnv, Option.getD_none, Nat.zero_add]
  by_cases hw : 1 > s.winning_proposal_votes
  · rw [if_pos hw]
    refine ⟨_, rfl, ?_, ?_⟩
    · exact lookupA_insertA_self s.votes (proposer, pid) 1
    · intro h0
      exact ⟨rfl, rfl⟩
  · rw [if_neg hw]
    refine ⟨_, rfl, ?_, ?_⟩
    · exact lookupA_insertA_self s.votes (proposer, pid) 1
    · intro h0
      exfalso
      rw [h0] at hw
      exact hw (Nat.lt_succ_self 0)

/-- Witness for C8: a vote for the unregistered key `(addrB, 3)` from the
initial state. -/
theorem vote_phantom_witness :
    ∃ s' : DAOState, vote createState addrA addrB 3 = some s' ∧
      lookupA s'.votes (addrB, 3) = some 1 ∧
      (createState.winning_proposal_votes = 0 →
        s'.winning_proposal_votes = 1 ∧ s'.winning_proposal = encodeKey (addrB, 3)) :=
  vote_phantom createState addrA addrB 3 (by decide) (by decide) (by decide) (by decide)

/-- C3: with the other preconditions satisfied, a payment strictly below
the minimum-balance delta produced by the entry write makes the call abort
with the mapping still free of the submitted key, and a payment equal to
the delta makes it succeed — for `add_proposal` and `add_update` alike. -/
theorem funding_exactness (s : DAOState) (appAddr sender reserve : Addr)
    (proposal : NFTProposal) (pid : Nat) (pay : PayTxn)
    (hrecv : pay.receiver = appAddr) :
    (s.minted_asa = 0 → lookupA s.proposals (sender, pid) = none →
      (pay.amount <
          minBalance { s with proposals := insertA s.proposals (sender, pid) proposal }
            - minBalance s →
        add_proposal s appAddr sender proposal pid pay = none ∧
          lookupA s.proposals (sender, pid) = none) ∧
      (pay.amount =
          minBalance { s with proposals := insertA s.proposals (sender, pid) proposal }
            - minBalance s →
        add_proposal s appAddr sender proposal pid pay
          = some { s with proposals := insertA s.proposals (sender, pid) proposal })) ∧
    (s.minted_asa ≠ 0 → lookupA s.update_proposals (sender, pid) = none →
      (pay.amount <
          minBalance
              { s with update_proposals := insertA s.update_proposals (sender, pid) reserve }
            - minBalance s →
        add_update s appAddr sender reserve pid pay = none ∧
          lookupA s.update_proposals (sender, pid) = none) ∧
      (pay.amount =
          minBalance
              { s with update_proposals := insertA s.update_proposals (sender, pid) reserve }
            - minBalance s →
        add_update s appAddr sender reserve pid pay
          = some { s with
              update_proposals := insertA s.update_proposals (sender, pid) reserve })) := by
  constructor
  · intro hphase hkey
    constructor
    · intro hlt
      refine ⟨?_, hkey⟩
      simp only [add_proposal]
      rw [if_pos hphase, if_pos hrecv, if_pos hkey, if_neg (by omega)]
    · intro heq
      simp only [add_proposal]
      rw [if_pos hphase, if_pos hrecv, if_pos hkey, if_pos (by omega)]
  · intro hphase hkey
    constructor
    · intro hlt
      refine ⟨?_, hkey⟩
      simp only [add_update]
      rw [if_pos hphase, if_pos hrecv, if_pos hkey, if_neg (by omega)]
    · intro heq
      simp only [add_update]
      rw [if_pos hphase, if_pos hrecv, if_pos hkey, if_pos (by omega)]

/-- Witness for C3: one byte of name and unit symbol makes the proposal
delta 36100 and the update delta 32500; paying one less aborts, paying
exactly succeeds. -/
theorem funding_exactness_witness :
    (add_proposal createState appAddrC addrA propC 1 ⟨appAddrC, 36099⟩ = none ∧
      lookupA createState.proposals (addrA, 1) = none) ∧
    add_proposal createState appAddrC addrA propC 1 ⟨appAddrC, 36100⟩
      = some { createState with
          proposals := insertA createState.proposals (addrA, 1) propC } ∧
    (add_update pmState appAddrC addrA addrB 1 ⟨appAddrC, 32499⟩ = none ∧
      lookupA pmState.update_proposals (addrA, 1) = none) ∧
    add_update pmState appAddrC addrA addrB 1 ⟨appAddrC, 32500⟩
      = some { pmState with
          update_proposals := insertA pmState.update_proposals (addrA, 1) addrB } :=
  ⟨((funding_exactness createState appAddrC addrA addrB propC 1 ⟨appAddrC, 36099⟩ rfl).1
      (by decide) (by decide)).1 (by decide),
    ((funding_exactness createState appAddrC addrA addrB propC 1 ⟨appAddrC, 36100⟩ rfl).1
      (by decide) (by decide)).2 (by decide),
    ((funding_exactness pmState appAddrC addrA addrB propC 1 ⟨appAddrC, 32499⟩ rfl).2
      (by decide) (by decide)).1 (by decide),
    ((funding_exactness pmState appAddrC addrA addrB propC 1 ⟨appAddrC, 32500⟩ rfl).2
      (by decide) (by decide)).2 (by decide)⟩

/-- C1 fails on the code: `update` decodes `winning_update` but then reads
the NFT `proposals` mapping, not `update_proposals`.  At `updBugState` the
update registry holds the winning key yet the call aborts because the
`proposals` box is absent; and at `updBugState2`, where the `proposals`
box does exist, the call still aborts — the reserve it read is the
42-byte `NFTProposal` box value, which fails the 32-byte address check of
`itxn_field ConfigAssetReserve` — so the reserve stored by `add_update`
is never applied. -/
theorem update_reads_nft_proposals_mapping :
    updBugState.minted_asa ≠ 0 ∧
      decodeKey updBugState.winning_update = some (addrB, 1) ∧
      lookupA updBugState.update_proposals (addrB, 1) = some addrA ∧
      lookupA updBugState.proposals (addrB, 1) = none ∧
      update updBugState appAddrC 1 = none ∧
      lookupA updBugState2.proposals (addrB, 1) = some propC ∧
      (encodeProposal propC).length = 42 ∧
      update updBugState2 appAddrC 1 = none := by
  decide
